import Mathlib

/-!
Verification development for the ALAN email-assistant repository
(ingestion-and-reply orchestration pipeline).

The repository ships the backend behaviour as documentation
(`src/documents/PR-Email-Client-Implementation.md`, `spec.md`) together with
code snippets for `clean_str`, `EmailClient.__init__` and the IMAP state
check.  The definitions below embed those snippets directly where they are
quoted, and model the remaining backend operations (ledger, orchestrator
loop, retrieval index, transport state machine) from the specification, as
marked on each definition.

Message identifiers are the protocol-assigned numeric ids of the mailbox
folder, so they are modelled as natural numbers.  Unicode strings are
modelled as lists of code points (natural numbers); byte strings as lists
of bytes.
-/

/-! ## ProcessedLedger (spec §4.2, data model §3 ProcessedRecord) -/

/-- Modelled from the spec: the durable set of already-answered message
identifiers kept in `backend/processed_messages.json` (the backing
`email_client.py` is not in the repository snapshot).  A record maps a
message identifier to its processed timestamp. -/
structure ProcessedLedger where
  records : List (Nat × Nat)
deriving DecidableEq

/-- Modelled from the spec: `isProcessed(id) -> bool`. -/
def ProcessedLedger.isProcessed (L : ProcessedLedger) (id : Nat) : Bool :=
  L.records.any (fun r => r.1 == id)

/-- Modelled from the spec: `commit(id, timestamp)` — idempotent; committing
an already-present id is a no-op, not an error (the operation is total and
returns the ledger). -/
def ProcessedLedger.commit (L : ProcessedLedger) (id : Nat) (ts : Nat) : ProcessedLedger :=
  if L.isProcessed id then L else ProcessedLedger.mk ((id, ts) :: L.records)

/-! ## Pipeline events and per-message processing (spec §4.7, §4.2, §2 data flow) -/

/-- Observable actions of one pipeline execution, in emission order:
sending the reply over SMTP, durably flushing the ledger commit, and
marking the message read on the mailbox. -/
inductive Event where
  | send (id : Nat)
  | commit (id : Nat)
  | markRead (id : Nat)
deriving DecidableEq

/-- A fetched raw message: its protocol-assigned identifier, its received
timestamp, and whether the parse/evaluate/generate stage succeeds for it
(`parseOk = false` abstracts a per-message failure). -/
structure RawMsg where
  id : Nat
  ts : Nat
  parseOk : Bool
deriving DecidableEq

/-- Modelled from the spec: the Orchestrator flow for one message
(fetch → parse → ledger check → evaluate/generate → send → commit →
mark-read); the implementing `main.py`/`email_client.py` are not in the
repository snapshot.  A message whose processing fails is skipped with no
effect; an already-processed message is only marked read; otherwise the
reply is sent, the commit flushed, and the message marked read — commit
before mark-read, per the spec invariant (§4.2, §9). -/
def processMessage (L : ProcessedLedger) (m : RawMsg) : ProcessedLedger × List Event :=
  if m.parseOk = false then (L, [])
  else if L.isProcessed m.id = true then (L, [Event.markRead m.id])
  else (L.commit m.id m.ts,
        [Event.send m.id, Event.commit m.id, Event.markRead m.id])

/-- Modelled from the spec: one polling cycle over the fetched batch,
threading the ledger through the messages in fetch order. -/
def processBatch : ProcessedLedger → List RawMsg → ProcessedLedger × List Event
  | L, [] => (L, [])
  | L, m :: ms =>
    ((processBatch (processMessage L m).1 ms).1,
     (processMessage L m).2 ++ (processBatch (processMessage L m).1 ms).2)

/-- Whether an event is the sending of a reply to the given message. -/
def isSendOf (id : Nat) : Event → Bool
  | Event.send j => j == id
  | _ => false

/-- Number of reply sends for a given message identifier in an event trace. -/
def countSend (id : Nat) (evs : List Event) : Nat :=
  evs.countP (isSendOf id)

/-! ## Orchestrator run-lock (spec §4.7, §5) -/

/-- Outcome reported to whoever tried to start a pipeline execution. -/
inductive RunOutcome where
  | started
  | alreadyRunning
deriving DecidableEq

/-- Modelled from the spec: the orchestrator's shared state — the run-lock
flag and the number of pipeline executions currently in flight. -/
structure OrchestratorState where
  running : Bool
  inFlight : Nat
deriving DecidableEq

/-- The orchestrator state at service startup: not running, nothing in flight. -/
def OrchestratorState.initial : OrchestratorState :=
  OrchestratorState.mk false 0

/-- Interleaved occurrences at the orchestrator: the scheduled timer fires,
a manual `POST /email/check` trigger arrives, or the in-flight run finishes. -/
inductive OrchEvent where
  | scheduledFire
  | manualTrigger
  | runFinish
deriving DecidableEq

/-- Modelled from the spec: both the scheduled timer and the manual trigger
funnel through the single-acquire run-lock; failure to acquire is reported
as `alreadyRunning` and changes nothing (§4.7, §5). -/
def orchStep (s : OrchestratorState) (e : OrchEvent) : OrchestratorState × Option RunOutcome :=
  match e with
  | OrchEvent.scheduledFire =>
    if s.running then (s, some RunOutcome.alreadyRunning)
    else (OrchestratorState.mk true (s.inFlight + 1), some RunOutcome.started)
  | OrchEvent.manualTrigger =>
    if s.running then (s, some RunOutcome.alreadyRunning)
    else (OrchestratorState.mk true (s.inFlight + 1), some RunOutcome.started)
  | OrchEvent.runFinish =>
    if s.running then (OrchestratorState.mk false (s.inFlight - 1), none)
    else (s, none)

/-- The orchestrator state reached after a sequence of interleaved events. -/
def orchRun (s : OrchestratorState) (evs : List OrchEvent) : OrchestratorState :=
  evs.foldl (fun t e => (orchStep t e).1) s

/-! ## MailTransport inbound state machine (spec §4.6; PR doc "IMAP State Management") -/

/-- Connection states of the inbound IMAP session. -/
inductive ImapState where
  | nonauth
  | authenticated
  | selected
  | loggedOut
deriving DecidableEq, Fintype

/-- State-changing inbound mailbox operations. -/
inductive ImapOp where
  | login
  | selectInbox
  | closeMailbox
  | logout
deriving DecidableEq, Fintype

/-- Modelled from the spec: which connection state permits which operation
(LOGIN from the unauthenticated state, SELECT once authenticated, CLOSE
only while a mailbox is selected, LOGOUT anywhere). -/
def permits : ImapState → ImapOp → Bool
  | ImapState.nonauth, ImapOp.login => true
  | ImapState.authenticated, ImapOp.selectInbox => true
  | ImapState.selected, ImapOp.selectInbox => true
  | ImapState.selected, ImapOp.closeMailbox => true
  | _, ImapOp.logout => true
  | _, _ => false

/-- Successor state after an operation is actually issued. -/
def imapTransition : ImapState → ImapOp → ImapState
  | _, ImapOp.login => ImapState.authenticated
  | _, ImapOp.selectInbox => ImapState.selected
  | _, ImapOp.closeMailbox => ImapState.authenticated
  | _, ImapOp.logout => ImapState.loggedOut

/-- Result of attempting a mailbox operation. -/
inductive OpResult where
  | ok (next : ImapState)
  | protocolError
  | reconnectRetry
deriving DecidableEq

/-- Issuing the operation on the wire without checking the state first: in a
state that does not permit it, the server answers with a protocol error
(the crash observed as "CLOSE illegal in state NONAUTH"). -/
def rawApply (s : ImapState) (op : ImapOp) : OpResult :=
  if permits s op then OpResult.ok (imapTransition s op) else OpResult.protocolError

/-- Modelled from the spec and the PR doc snippet
`if hasattr(mail, 'state') and mail.state == "SELECTED"`: the implementation
checks the current state before issuing a state-changing operation, and
treats a non-permitting state as a recoverable reconnect-and-retry outcome
instead of issuing the operation. -/
def guardedApply (s : ImapState) (op : ImapOp) : OpResult :=
  if permits s op then rawApply s op else OpResult.reconnectRetry

/-! ## RetrievalIndex (spec §4.3; RENDER_SETUP.md rag_max_index_size) -/

/-- Default of the `rag_max_index_size` setting (RENDER_SETUP.md). -/
def rag_max_index_size : Nat := 10000

/-- A stored chunk: text, embedding vector, owning document id, ingestion
timestamp (spec §3 DocumentChunk). -/
structure DocumentChunk where
  text : List Nat
  embedding : List Int
  docId : Nat
  ingestedAt : Nat
deriving DecidableEq

/-- The vector store: its configured maximum size and the stored chunks. -/
structure RetrievalIndex where
  maxSize : Nat
  chunks : List DocumentChunk
deriving DecidableEq

/-- Modelled from the spec: `ingest` is additive only, and when the
configured maximum size would be exceeded it fails closed — rejects the new
chunks and leaves the index unchanged — rather than evicting existing ones
(`rag_engine.py` is not in the repository snapshot).  The boolean reports
success. -/
def RetrievalIndex.ingest (idx : RetrievalIndex) (newChunks : List DocumentChunk) :
    Bool × RetrievalIndex :=
  if idx.maxSize < idx.chunks.length + newChunks.length then (false, idx)
  else (true, RetrievalIndex.mk idx.maxSize (idx.chunks ++ newChunks))

/-! ## EmailClient construction (PR doc "Email Client Initialization" snippet) -/

/-- The name of the ledger file assigned by `EmailClient.__init__`. -/
def processed_messages_file : String := "processed_messages.json"

/-- The empty string (used for Python's `os.getenv` default handling). -/
def emptyString : String := ""

/-- Python truthiness of an `os.getenv` result: `None` and the empty string
are falsy, every other string is truthy. -/
def strTruthy : Option String → Bool
  | Option.none => false
  | Option.some s => !(s == emptyString)

/-- The constructed mail transport object: Gmail credentials and the ledger
file name, exactly the fields the `__init__` snippet assigns. -/
structure EmailClient where
  gmail_user : String
  gmail_app_pass : String
  processed_file : String
deriving DecidableEq

/-- Embedded from the PR doc snippet of `EmailClient.__init__`: read the two
environment variables, and raise `ValueError` (modelled as `Except.error ()`)
when `not self.gmail_user or not self.gmail_app_pass`; otherwise construct
the client record.  The snippet performs no network call: construction is a
pure assignment of fields. -/
def EmailClient.init (gmail_user gmail_app_pass : Option String) : Except Unit EmailClient :=
  if !(strTruthy gmail_user) || !(strTruthy gmail_app_pass) then Except.error ()
  else Except.ok (EmailClient.mk (gmail_user.getD emptyString)
    (gmail_app_pass.getD emptyString) processed_messages_file)

/-- A sample non-empty GMAIL_USER value for concrete instantiation. -/
def sampleUser : String := "hello.alan.01@gmail.com"

/-- A sample non-empty GMAIL_APP_PASS value for concrete instantiation. -/
def samplePass : String := "app-password-16ch"

/-! ## MessageParser normalization: `clean_str` (PR doc "Unicode-Safe String Handling" snippet)

Python strings are modelled as lists of Unicode code points, byte strings as
lists of bytes. -/

/-- A Unicode scalar value: in range and not a surrogate. -/
def validScalar (c : Nat) : Bool :=
  c < 0x110000 && !(0xD800 ≤ c && c ≤ 0xDFFF)

/-- A UTF-8 continuation byte. -/
def isCont (b : Nat) : Bool :=
  0x80 ≤ b && b ≤ 0xBF

/-- UTF-8 decoding loop with replacement, modelling Python's
`s.decode("utf-8", errors="replace")`: a well-formed sequence (no overlong
form, no surrogate, at most U+10FFFF) yields its code point; any invalid or
truncated lead yields U+FFFD and decoding resumes after that lead byte
(Python may group some invalid bytes into one replacement; only the fact
that invalid input is replaced, never fatal, matters here).  The fuel
argument is the recursion bound, instantiated with the length of the
input. -/
def decodeLoop : Nat → List Nat → List Nat
  | 0, _ => []
  | _, [] => []
  | fuel + 1, b1 :: rest =>
    if b1 ≤ 0x7F then b1 :: decodeLoop fuel rest
    else if b1 ≤ 0xBF then 0xFFFD :: decodeLoop fuel rest
    else if b1 ≤ 0xDF then
      match rest with
      | b2 :: rest2 =>
        if isCont b2 && 0x80 ≤ (b1 - 0xC0) * 0x40 + (b2 - 0x80) then
          ((b1 - 0xC0) * 0x40 + (b2 - 0x80)) :: decodeLoop fuel rest2
        else 0xFFFD :: decodeLoop fuel rest
      | [] => [0xFFFD]
    else if b1 ≤ 0xEF then
      match rest with
      | b2 :: b3 :: rest3 =>
        if isCont b2 && isCont b3 &&
            0x800 ≤ (b1 - 0xE0) * 0x1000 + (b2 - 0x80) * 0x40 + (b3 - 0x80) &&
            validScalar ((b1 - 0xE0) * 0x1000 + (b2 - 0x80) * 0x40 + (b3 - 0x80)) then
          ((b1 - 0xE0) * 0x1000 + (b2 - 0x80) * 0x40 + (b3 - 0x80)) :: decodeLoop fuel rest3
        else 0xFFFD :: decodeLoop fuel rest
      | _ => 0xFFFD :: decodeLoop fuel rest
    else if b1 ≤ 0xF4 then
      match rest with
      | b2 :: b3 :: b4 :: rest4 =>
        if isCont b2 && isCont b3 && isCont b4 &&
            0x10000 ≤ (b1 - 0xF0) * 0x40000 + (b2 - 0x80) * 0x1000 + (b3 - 0x80) * 0x40 + (b4 - 0x80) &&
            (b1 - 0xF0) * 0x40000 + (b2 - 0x80) * 0x1000 + (b3 - 0x80) * 0x40 + (b4 - 0x80) ≤ 0x10FFFF then
          ((b1 - 0xF0) * 0x40000 + (b2 - 0x80) * 0x1000 + (b3 - 0x80) * 0x40 + (b4 - 0x80)) ::
            decodeLoop fuel rest4
        else 0xFFFD :: decodeLoop fuel rest
      | _ => 0xFFFD :: decodeLoop fuel rest
    else 0xFFFD :: decodeLoop fuel rest

/-- `bytes.decode("utf-8", errors="replace")`. -/
def decodeUtf8Replace (bs : List Nat) : List Nat :=
  decodeLoop bs.length bs

/-- The code points that Python's NFKC normalization collapses to a plain
space among the "weird spaces" the snippet is about: U+00A0 NO-BREAK SPACE,
the U+2000–U+200A spaces, U+202F NARROW NO-BREAK SPACE, U+205F MEDIUM
MATHEMATICAL SPACE and U+3000 IDEOGRAPHIC SPACE (each has the compatibility
decomposition U+0020). -/
def isCompatSpace (c : Nat) : Bool :=
  c == 0xA0 || (0x2000 ≤ c && c ≤ 0x200A) || c == 0x202F || c == 0x205F || c == 0x3000

/-- Model of Python's `unicodedata.normalize("NFKC", ·)` on one code point,
restricted to the fragment of Unicode exercised here: the compatibility
spaces collapse to U+0020, the compatibility ligature U+FB01 (ﬁ) decomposes
to "fi", and every other code point is left unchanged (faithful for input
without further compatibility characters or combining sequences — none of
the modelled points takes part in canonical composition). -/
def nfkcChar (c : Nat) : List Nat :=
  if isCompatSpace c then [0x20]
  else if c == 0xFB01 then [0x66, 0x69]
  else [c]

/-- NFKC normalization of a code-point string, on the modelled fragment. -/
def nfkcNormalize (s : List Nat) : List Nat :=
  s.flatMap nfkcChar

/-- Model of canonical-composition normalization (NFC) on one code point of
the same fragment: NFC applies no compatibility decomposition, and none of
the modelled code points (the compatibility spaces, U+FB01) has a canonical
decomposition or composes canonically, so each is left unchanged. -/
def nfcChar (c : Nat) : List Nat :=
  [c]

/-- NFC normalization of a code-point string, on the modelled fragment. -/
def nfcNormalize (s : List Nat) : List Nat :=
  s.flatMap nfcChar

/-- Python's `.replace("\xa0", " ")` on one code point. -/
def replaceNbspChar (c : Nat) : Nat :=
  if c == 0xA0 then 0x20 else c

/-- A value `clean_str` may receive: `None`, a `bytes`, or a `str`. -/
inductive PyVal where
  | pynone
  | pybytes (bs : List Nat)
  | pystr (s : List Nat)
deriving DecidableEq

/-- Embedded from the PR doc snippet of `clean_str`: `None` becomes the
empty string; `bytes` are decoded as UTF-8 with replacement; the result is
NFKC-normalized and every remaining U+00A0 is replaced by a plain space. -/
def clean_str : PyVal → List Nat
  | PyVal.pynone => []
  | PyVal.pybytes bs => (nfkcNormalize (decodeUtf8Replace bs)).map replaceNbspChar
  | PyVal.pystr s => (nfkcNormalize s).map replaceNbspChar

/-- Collapsing the non-breaking and exotic whitespace code points to plain
spaces, as the spec's words describe the whitespace replacement. -/
def collapseWhitespaceChar (c : Nat) : Nat :=
  if isCompatSpace c then 0x20 else c

/-- Following the spec's words, for comparison with `clean_str`: "the
normalized output equals the canonical-composition normal form of the input
after that whitespace replacement" — whitespace collapsed to plain spaces,
then canonical composition (NFC). -/
def specCanonicalNormalize (s : List Nat) : List Nat :=
  nfcNormalize (s.map collapseWhitespaceChar)

/-! ## Ledger lemmas -/

theorem commit_of_processed (L : ProcessedLedger) (id ts : Nat)
    (h : L.isProcessed id = true) : L.commit id ts = L := by
  simp [ProcessedLedger.commit, h]

theorem isProcessed_commit_self (L : ProcessedLedger) (id ts : Nat) :
    (L.commit id ts).isProcessed id = true := by
  unfold ProcessedLedger.commit
  by_cases h : L.isProcessed id = true
  · rw [if_pos h]; exact h
  · rw [if_neg h]
    simp [ProcessedLedger.isProcessed]

theorem isProcessed_commit_mono (L : ProcessedLedger) (id ts j : Nat)
    (h : L.isProcessed j = true) : (L.commit id ts).isProcessed j = true := by
  unfold ProcessedLedger.commit
  by_cases hc : L.isProcessed id = true
  · rw [if_pos hc]; exact h
  · rw [if_neg hc]
    have h2 : (ProcessedLedger.mk ((id, ts) :: L.records)).isProcessed j
        = ((id == j) || L.records.any fun r => r.1 == j) := rfl
    rw [h2]
    have h3 : (L.records.any fun r => r.1 == j) = true := h
    rw [h3]
    simp

theorem isProcessed_commit_cases (L : ProcessedLedger) (id ts j : Nat)
    (h : (L.commit id ts).isProcessed j = true) :
    L.isProcessed j = true ∨ j = id := by
  unfold ProcessedLedger.commit at h
  by_cases hc : L.isProcessed id = true
  · rw [if_pos hc] at h; exact Or.inl h
  · rw [if_neg hc] at h
    have h2 : ((id == j) || L.records.any fun r => r.1 == j) = true := h
    rcases Bool.or_eq_true_iff.mp h2 with h3 | h3
    · exact Or.inr (by simpa using (by simpa using h3 : id = j).symm)
    · exact Or.inl h3

theorem isProcessed_commit_ne (L : ProcessedLedger) (id ts j : Nat) (hne : j ≠ id) :
    (L.commit id ts).isProcessed j = L.isProcessed j := by
  unfold ProcessedLedger.commit
  by_cases hc : L.isProcessed id = true
  · rw [if_pos hc]
  · rw [if_neg hc]
    have h2 : (ProcessedLedger.mk ((id, ts) :: L.records)).isProcessed j
        = ((id == j) || L.records.any fun r => r.1 == j) := rfl
    rw [h2]
    have h3 : (id == j) = false := by
      simp only [beq_eq_false_iff_ne, ne_eq]
      omega
    rw [h3]
    simp [ProcessedLedger.isProcessed]

/-! ## Pipeline lemmas -/

theorem processMessage_fail (L : ProcessedLedger) (m : RawMsg) (hp : m.parseOk = false) :
    processMessage L m = (L, []) := by
  simp [processMessage, hp]

theorem processMessage_dup (L : ProcessedLedger) (m : RawMsg) (hp : m.parseOk = true)
    (hq : L.isProcessed m.id = true) :
    processMessage L m = (L, [Event.markRead m.id]) := by
  simp [processMessage, hp, hq]

theorem processMessage_reply (L : ProcessedLedger) (m : RawMsg) (hp : m.parseOk = true)
    (hq : L.isProcessed m.id = false) :
    processMessage L m = (L.commit m.id m.ts,
      [Event.send m.id, Event.commit m.id, Event.markRead m.id]) := by
  simp [processMessage, hp, hq]

theorem processBatch_cons (L : ProcessedLedger) (m : RawMsg) (ms : List RawMsg) :
    processBatch L (m :: ms) =
      ((processBatch (processMessage L m).1 ms).1,
       (processMessage L m).2 ++ (processBatch (processMessage L m).1 ms).2) := rfl

theorem processMessage_mono (L : ProcessedLedger) (m : RawMsg) (j : Nat)
    (h : L.isProcessed j = true) : (processMessage L m).1.isProcessed j = true := by
  unfold processMessage
  split
  · exact h
  · split
    · exact h
    · exact isProcessed_commit_mono _ _ _ _ h

theorem processBatch_mono (msgs : List RawMsg) (L : ProcessedLedger) (j : Nat)
    (h : L.isProcessed j = true) : (processBatch L msgs).1.isProcessed j = true := by
  induction msgs generalizing L with
  | nil => exact h
  | cons m ms ih => exact ih _ (processMessage_mono _ _ _ h)

theorem processBatch_snd_cons (L : ProcessedLedger) (m : RawMsg) (ms : List RawMsg) :
    (processBatch L (m :: ms)).2 =
      (processMessage L m).2 ++ (processBatch (processMessage L m).1 ms).2 := rfl

theorem processBatch_fst_cons (L : ProcessedLedger) (m : RawMsg) (ms : List RawMsg) :
    (processBatch L (m :: ms)).1 = (processBatch (processMessage L m).1 ms).1 := rfl

theorem countSend_append (id : Nat) (a b : List Event) :
    countSend id (a ++ b) = countSend id a + countSend id b := by
  simp [countSend, List.countP_append]

theorem countSend_markRead_block (id x : Nat) :
    countSend id [Event.markRead x] = 0 := by
  simp [countSend, List.countP_cons, isSendOf]

theorem countSend_reply_block (id x : Nat) :
    countSend id [Event.send x, Event.commit x, Event.markRead x]
      = if x == id then 1 else 0 := by
  cases hx : x == id <;> simp [countSend, List.countP_cons, isSendOf, hx]

theorem processBatch_no_send (msgs : List RawMsg) (L : ProcessedLedger) (id : Nat)
    (h : L.isProcessed id = true) : countSend id (processBatch L msgs).2 = 0 := by
  induction msgs generalizing L with
  | nil => simp [processBatch, countSend]
  | cons m ms ih =>
    have htail : countSend id (processBatch (processMessage L m).1 ms).2 = 0 :=
      ih _ (processMessage_mono _ _ _ h)
    rw [processBatch_snd_cons, countSend_append, htail]
    cases hp : m.parseOk with
    | false =>
      rw [processMessage_fail L m hp]
      simp [countSend]
    | true =>
      cases hq2 : L.isProcessed m.id with
      | true =>
        rw [processMessage_dup L m hp hq2]
        simp [countSend_markRead_block]
      | false =>
        have hne2 : m.id ≠ id := by
          intro he
          rw [he] at hq2
          rw [h] at hq2
          simp at hq2
        rw [processMessage_reply L m hp hq2, countSend_reply_block]
        simp [hne2]

theorem processBatch_countSend_le_one (msgs : List RawMsg) (L : ProcessedLedger) (id : Nat) :
    countSend id (processBatch L msgs).2 ≤ 1 := by
  induction msgs generalizing L with
  | nil => simp [processBatch, countSend]
  | cons m ms ih =>
    rw [processBatch_snd_cons, countSend_append]
    cases hp : m.parseOk with
    | false =>
      rw [processMessage_fail L m hp]
      simpa [countSend] using ih L
    | true =>
      cases hq2 : L.isProcessed m.id with
      | true =>
        rw [processMessage_dup L m hp hq2, countSend_markRead_block]
        simpa using ih L
      | false =>
        rw [processMessage_reply L m hp hq2, countSend_reply_block]
        cases hee : m.id == id with
        | false =>
          have := ih (L.commit m.id m.ts)
          simpa using this
        | true =>
          have heq : m.id = id := by simpa using hee
          subst heq
          have h0 : countSend m.id (processBatch (L.commit m.id m.ts) ms).2 = 0 :=
            processBatch_no_send ms _ m.id (isProcessed_commit_self _ _ _)
          rw [h0]
          simp

theorem processBatch_send_not_processed (msgs : List RawMsg) (L : ProcessedLedger) (id : Nat)
    (h : Event.send id ∈ (processBatch L msgs).2) : L.isProcessed id = false := by
  induction msgs generalizing L with
  | nil => simp [processBatch] at h
  | cons m ms ih =>
    rw [processBatch_snd_cons] at h
    cases hp : m.parseOk with
    | false =>
      rw [processMessage_fail L m hp] at h
      exact ih L (by simpa using h)
    | true =>
      cases hq2 : L.isProcessed m.id with
      | true =>
        rw [processMessage_dup L m hp hq2] at h
        simp [List.mem_append, List.mem_cons] at h
        exact ih L h
      | false =>
        rw [processMessage_reply L m hp hq2] at h
        simp [List.mem_append, List.mem_cons] at h
        rcases h with h | h
        · rw [h]
          exact hq2
        · have h2 := ih _ h
          cases h3 : L.isProcessed id with
          | false => rfl
          | true =>
            have h4 := isProcessed_commit_mono L m.id m.ts id h3
            rw [h2] at h4
            exact absurd h4 (by simp)

theorem processBatch_append (L : ProcessedLedger) (b1 b2 : List RawMsg) :
    processBatch L (b1 ++ b2) =
      ((processBatch (processBatch L b1).1 b2).1,
       (processBatch L b1).2 ++ (processBatch (processBatch L b1).1 b2).2) := by
  induction b1 generalizing L with
  | nil => simp [processBatch]
  | cons m ms ih =>
    rw [List.cons_append]
    have hms := ih (processMessage L m).1
    rw [processBatch_cons, hms, processBatch_fst_cons, processBatch_snd_cons,
      List.append_assoc]

/-- C1: running the pipeline on the same raw message twice — in the same
cycle or across cycles — sends at most one reply for it: committing an
already-present identifier is a no-op that leaves the ledger unchanged (and
is not an error, `commit` being total), the pipeline re-checks
`isProcessed` before replying (a send only happens for an identifier absent
from the ledger), and the total number of reply sends for an identifier
over two consecutive cycles, or over one cycle containing the message
twice, never exceeds one. -/
theorem ledger_at_most_one_reply (L : ProcessedLedger) (id ts : Nat) (b1 b2 : List RawMsg) :
    (L.isProcessed id = true → L.commit id ts = L) ∧
    countSend id (processBatch L (b1 ++ b2)).2 ≤ 1 ∧
    countSend id (processBatch L b1).2 +
      countSend id (processBatch (processBatch L b1).1 b2).2 ≤ 1 ∧
    (Event.send id ∈ (processBatch L (b1 ++ b2)).2 → L.isProcessed id = false) := by
  refine ⟨commit_of_processed L id ts, processBatch_countSend_le_one _ _ _, ?_, ?_⟩
  · have h := processBatch_countSend_le_one (b1 ++ b2) L id
    rw [processBatch_append, countSend_append] at h
    exact h
  · exact processBatch_send_not_processed _ _ _

/-- Witness for C1 at concrete inputs: a ledger already holding id 7 is
unchanged by a further commit of 7, and replaying message 7 in two
consecutive cycles yields exactly one send in total. -/
theorem ledger_at_most_one_reply_witness :
    ProcessedLedger.commit (ProcessedLedger.mk [(7, 3)]) 7 9 = ProcessedLedger.mk [(7, 3)] ∧
    countSend 7 (processBatch (ProcessedLedger.mk []) [RawMsg.mk 7 0 true]).2 +
      countSend 7 (processBatch
        (processBatch (ProcessedLedger.mk []) [RawMsg.mk 7 0 true]).1
        [RawMsg.mk 7 1 true]).2 ≤ 1 ∧
    (ProcessedLedger.mk []).isProcessed 7 = false := by
  refine ⟨?_, ?_, ?_⟩
  · exact (ledger_at_most_one_reply (ProcessedLedger.mk [(7, 3)]) 7 9 [] []).1 (by decide)
  · exact (ledger_at_most_one_reply (ProcessedLedger.mk []) 7 0
      [RawMsg.mk 7 0 true] [RawMsg.mk 7 1 true]).2.2.1
  · exact (ledger_at_most_one_reply (ProcessedLedger.mk []) 7 0
      [RawMsg.mk 7 0 true] [RawMsg.mk 7 1 true]).2.2.2 (by decide)

theorem processBatch_markRead_commit_or_processed (msgs : List RawMsg) (L : ProcessedLedger)
    (id j : Nat) (h : (processBatch L msgs).2.get? j = some (Event.markRead id)) :
    (∃ i, i < j ∧ (processBatch L msgs).2.get? i = some (Event.commit id)) ∨
      L.isProcessed id = true := by
  induction msgs generalizing L j with
  | nil => simp [processBatch] at h
  | cons m ms ih =>
    rw [processBatch_snd_cons] at h
    cases hp : m.parseOk with
    | false =>
      rw [processMessage_fail L m hp] at h
      rcases ih L j (by simpa using h) with ⟨i, hi, hg⟩ | hL
      · refine Or.inl ⟨i, hi, ?_⟩
        rw [processBatch_snd_cons, processMessage_fail L m hp]
        simpa using hg
      · exact Or.inr hL
    | true =>
      cases hq2 : L.isProcessed m.id with
      | true =>
        rw [processMessage_dup L m hp hq2] at h
        cases j with
        | zero =>
          simp at h
          exact Or.inr (h ▸ hq2)
        | succ j2 =>
          rcases ih L j2 (by simpa using h) with ⟨i, hi, hg⟩ | hL
          · refine Or.inl ⟨i + 1, by omega, ?_⟩
            rw [processBatch_snd_cons, processMessage_dup L m hp hq2]
            simpa using hg
          · exact Or.inr hL
      | false =>
        rw [processMessage_reply L m hp hq2] at h
        rcases j with _ | _ | _ | j3
        · simp at h
        · simp at h
        · simp at h
          refine Or.inl ⟨1, by omega, ?_⟩
          rw [processBatch_snd_cons, processMessage_reply L m hp hq2]
          simp [h]
        · have h2 : (processBatch (L.commit m.id m.ts) ms).2.get? j3
              = some (Event.markRead id) := by simpa using h
          rcases ih _ j3 h2 with ⟨i, hi, hg⟩ | hL
          · refine Or.inl ⟨i + 3, by omega, ?_⟩
            rw [processBatch_snd_cons, processMessage_reply L m hp hq2]
            simpa using hg
          · rcases isProcessed_commit_cases L m.id m.ts id hL with hL2 | hL2
            · exact Or.inr hL2
            · refine Or.inl ⟨1, by omega, ?_⟩
              rw [processBatch_snd_cons, processMessage_reply L m hp hq2]
              simp [hL2]

/-- C3: for every message the pipeline replies to, the durable flush of the
ledger commit of its identifier happens strictly before that message is
marked read on the mailbox: at every position of a cycle's event trace
where a mark-read for an identifier occurs, if that identifier was replied
to in the cycle then a commit of it occurs at an earlier position. -/
theorem commit_precedes_markRead (L : ProcessedLedger) (msgs : List RawMsg) (id j : Nat)
    (hmr : (processBatch L msgs).2.get? j = some (Event.markRead id))
    (hs : Event.send id ∈ (processBatch L msgs).2) :
    ∃ i, i < j ∧ (processBatch L msgs).2.get? i = some (Event.commit id) := by
  rcases processBatch_markRead_commit_or_processed msgs L id j hmr with h | h
  · exact h
  · have h2 := processBatch_send_not_processed msgs L id hs
    rw [h2] at h
    exact absurd h (by simp)

/-- Witness for C3 at a concrete input: in the trace of a one-message cycle
for fresh message 4, the mark-read at position 2 is preceded by the commit
at position 1. -/
theorem commit_precedes_markRead_witness :
    ∃ i, i < 2 ∧ (processBatch (ProcessedLedger.mk []) [RawMsg.mk 4 0 true]).2.get? i
      = some (Event.commit 4) :=
  commit_precedes_markRead (ProcessedLedger.mk []) [RawMsg.mk 4 0 true] 4 2
    (by decide) (by decide)

theorem processBatch_filter (msgs : List RawMsg) (L : ProcessedLedger) :
    processBatch L msgs = processBatch L (msgs.filter fun x => x.parseOk) := by
  induction msgs generalizing L with
  | nil => rfl
  | cons m ms ih =>
    cases hp : m.parseOk with
    | false =>
      have hL : processBatch L (m :: ms) = processBatch L ms := by
        rw [processBatch_cons, processMessage_fail L m hp]
        simp
      rw [hL, List.filter_cons]
      simp only [hp, Bool.false_eq_true, if_false]
      exact ih L
    | true =>
      rw [List.filter_cons]
      simp only [hp, if_true]
      rw [processBatch_cons, processBatch_cons, ih]

theorem processBatch_ok_committed (msgs : List RawMsg) (L : ProcessedLedger) :
    ∀ m ∈ msgs, m.parseOk = true → (processBatch L msgs).1.isProcessed m.id = true := by
  induction msgs generalizing L with
  | nil =>
    intro m hm
    simp at hm
  | cons m0 ms ih =>
    intro m hm hok
    rcases List.mem_cons.mp hm with rfl | hm2
    · rw [processBatch_fst_cons]
      apply processBatch_mono
      cases hq : L.isProcessed m.id with
      | true =>
        rw [processMessage_dup L m hok hq]
        exact hq
      | false =>
        rw [processMessage_reply L m hok hq]
        exact isProcessed_commit_self _ _ _
    · rw [processBatch_fst_cons]
      exact ih _ m hm2 hok

theorem processBatch_ok_sent (msgs : List RawMsg) (L : ProcessedLedger) :
    ∀ m ∈ msgs, m.parseOk = true → L.isProcessed m.id = false →
      Event.send m.id ∈ (processBatch L msgs).2 := by
  induction msgs generalizing L with
  | nil =>
    intro m hm
    simp at hm
  | cons m0 ms ih =>
    intro m hm hok hfresh
    rw [processBatch_snd_cons]
    rcases List.mem_cons.mp hm with rfl | hm2
    · rw [processMessage_reply L m hok hfresh]
      simp
    · cases hp0 : m0.parseOk with
      | false =>
        rw [processMessage_fail L m0 hp0]
        simpa using ih L m hm2 hok hfresh
      | true =>
        cases hq0 : L.isProcessed m0.id with
        | true =>
          rw [processMessage_dup L m0 hp0 hq0]
          exact List.mem_append_right _ (ih L m hm2 hok hfresh)
        | false =>
          rw [processMessage_reply L m0 hp0 hq0]
          by_cases hid : m.id = m0.id
          · rw [hid]
            exact List.mem_append_left _ (List.mem_cons_self _ _)
          · refine List.mem_append_right _ (ih _ m hm2 hok ?_)
            rw [isProcessed_commit_ne L m0.id m0.ts m.id hid]
            exact hfresh

theorem processBatch_new_ids (msgs : List RawMsg) (L : ProcessedLedger) (id : Nat)
    (h : (processBatch L msgs).1.isProcessed id = true) :
    L.isProcessed id = true ∨ ∃ m, m ∈ msgs ∧ m.parseOk = true ∧ m.id = id := by
  induction msgs generalizing L with
  | nil => exact Or.inl h
  | cons m0 ms ih =>
    rw [processBatch_fst_cons] at h
    rcases ih _ h with h2 | ⟨m, hm, hok, hid⟩
    · cases hp0 : m0.parseOk with
      | false =>
        rw [processMessage_fail L m0 hp0] at h2
        exact Or.inl h2
      | true =>
        cases hq0 : L.isProcessed m0.id with
        | true =>
          rw [processMessage_dup L m0 hp0 hq0] at h2
          exact Or.inl h2
        | false =>
          rw [processMessage_reply L m0 hp0 hq0] at h2
          rcases isProcessed_commit_cases L m0.id m0.ts id h2 with h3 | h3
          · exact Or.inl h3
          · exact Or.inr ⟨m0, List.mem_cons_self _ _, hp0, h3.symm⟩
    · exact Or.inr ⟨m, List.mem_cons_of_mem _ hm, hok, hid⟩

/-- C4: a parse/evaluate/generate failure on one message of a batch does
not abort the batch and never corrupts the ledger: the cycle's result is
exactly the result of processing the non-failing messages alone, every
non-failing message of the batch ends up committed (and, when its
identifier was fresh, a reply send for it occurs), and the failing
messages' identifiers are never committed — every identifier processed
after the cycle was either already in the ledger or belongs to a
non-failing message of the batch. -/
theorem batch_failure_isolated (L : ProcessedLedger) (msgs : List RawMsg) :
    processBatch L msgs = processBatch L (msgs.filter fun x => x.parseOk) ∧
    (∀ m ∈ msgs, m.parseOk = true → (processBatch L msgs).1.isProcessed m.id = true) ∧
    (∀ m ∈ msgs, m.parseOk = true → L.isProcessed m.id = false →
      Event.send m.id ∈ (processBatch L msgs).2) ∧
    (∀ id, (processBatch L msgs).1.isProcessed id = true →
      L.isProcessed id = true ∨ ∃ m, m ∈ msgs ∧ m.parseOk = true ∧ m.id = id) :=
  ⟨processBatch_filter msgs L, processBatch_ok_committed msgs L,
   processBatch_ok_sent msgs L, processBatch_new_ids msgs L⟩

/-- Witness for C4 at the spec's end-to-end scenario 3: a batch of three
messages where message 2 fails to parse — messages 1 and 3 are replied to
and committed, the cycle equals the cycle on messages 1 and 3 alone, and
message 2 is not committed. -/
theorem batch_failure_isolated_witness :
    processBatch (ProcessedLedger.mk []) [RawMsg.mk 1 0 true, RawMsg.mk 2 0 false, RawMsg.mk 3 0 true]
      = processBatch (ProcessedLedger.mk [])
          ([RawMsg.mk 1 0 true, RawMsg.mk 2 0 false, RawMsg.mk 3 0 true].filter fun x => x.parseOk) ∧
    (processBatch (ProcessedLedger.mk [])
      [RawMsg.mk 1 0 true, RawMsg.mk 2 0 false, RawMsg.mk 3 0 true]).1.isProcessed 1 = true ∧
    (processBatch (ProcessedLedger.mk [])
      [RawMsg.mk 1 0 true, RawMsg.mk 2 0 false, RawMsg.mk 3 0 true]).1.isProcessed 3 = true ∧
    Event.send 3 ∈ (processBatch (ProcessedLedger.mk [])
      [RawMsg.mk 1 0 true, RawMsg.mk 2 0 false, RawMsg.mk 3 0 true]).2 ∧
    (processBatch (ProcessedLedger.mk [])
      [RawMsg.mk 1 0 true, RawMsg.mk 2 0 false, RawMsg.mk 3 0 true]).1.isProcessed 2 = false := by
  refine ⟨(batch_failure_isolated (ProcessedLedger.mk []) _).1,
    (batch_failure_isolated (ProcessedLedger.mk []) _).2.1 (RawMsg.mk 1 0 true) (by decide) rfl,
    (batch_failure_isolated (ProcessedLedger.mk []) _).2.1 (RawMsg.mk 3 0 true) (by decide) rfl,
    (batch_failure_isolated (ProcessedLedger.mk []) _).2.2.1 (RawMsg.mk 3 0 true) (by decide) rfl
      (by decide),
    by decide⟩

/-! ## Orchestrator run-lock lemmas -/

theorem orchStep_preserves_lock_inv (s : OrchestratorState) (e : OrchEvent)
    (h : s.inFlight = if s.running then 1 else 0) :
    (orchStep s e).1.inFlight = if (orchStep s e).1.running then 1 else 0 := by
  cases e with
  | scheduledFire =>
    cases hr : s.running with
    | true => simpa [orchStep, hr] using h
    | false =>
      rw [hr] at h
      simp [orchStep, hr, h]
  | manualTrigger =>
    cases hr : s.running with
    | true => simpa [orchStep, hr] using h
    | false =>
      rw [hr] at h
      simp [orchStep, hr, h]
  | runFinish =>
    cases hr : s.running with
    | true =>
      rw [hr] at h
      simp [orchStep, hr, h]
    | false => simpa [orchStep, hr] using h

theorem orchRun_lock_inv (evs : List OrchEvent) (s : OrchestratorState)
    (h : s.inFlight = if s.running then 1 else 0) :
    (orchRun s evs).inFlight = if (orchRun s evs).running then 1 else 0 := by
  induction evs generalizing s with
  | nil => exact h
  | cons e es ih => exact ih _ (orchStep_preserves_lock_inv s e h)

/-- C2: at every reachable point at most one pipeline execution is in
flight, and a manual trigger arriving while a run is active is coalesced:
it starts no second execution — the state is unchanged — and reports
`alreadyRunning`. -/
theorem manual_trigger_coalesced (evs : List OrchEvent) :
    (orchRun OrchestratorState.initial evs).inFlight ≤ 1 ∧
    ((orchRun OrchestratorState.initial evs).running = true →
      orchStep (orchRun OrchestratorState.initial evs) OrchEvent.manualTrigger =
        (orchRun OrchestratorState.initial evs, some RunOutcome.alreadyRunning)) := by
  have hinv := orchRun_lock_inv evs OrchestratorState.initial rfl
  constructor
  · rw [hinv]
    cases (orchRun OrchestratorState.initial evs).running <;> simp
  · intro hr
    simp [orchStep, hr]

/-- Witness for C2 at a concrete trace: after a scheduled run has started,
the orchestrator is running and a manual trigger leaves the state unchanged
and reports "already running". -/
theorem manual_trigger_coalesced_witness :
    (orchRun OrchestratorState.initial [OrchEvent.scheduledFire]).inFlight ≤ 1 ∧
    orchStep (orchRun OrchestratorState.initial [OrchEvent.scheduledFire]) OrchEvent.manualTrigger
      = (orchRun OrchestratorState.initial [OrchEvent.scheduledFire],
         some RunOutcome.alreadyRunning) :=
  ⟨(manual_trigger_coalesced [OrchEvent.scheduledFire]).1,
   (manual_trigger_coalesced [OrchEvent.scheduledFire]).2 (by decide)⟩

/-- C5: ingesting further chunks while the retrieval index already holds
its configured maximum number of chunks fails the ingestion and leaves the
index exactly unchanged — no chunk added, none evicted. -/
theorem ingest_at_capacity_rejects (idx : RetrievalIndex) (newChunks : List DocumentChunk)
    (hfull : idx.maxSize ≤ idx.chunks.length) (hne : newChunks ≠ []) :
    idx.ingest newChunks = (false, idx) := by
  unfold RetrievalIndex.ingest
  have hlen : 0 < newChunks.length := List.length_pos.mpr hne
  have hcond : idx.maxSize < idx.chunks.length + newChunks.length := by omega
  rw [if_pos hcond]

/-- Witness for C5 at the default capacity: an index at the default
`rag_max_index_size` (10000 chunks) rejects a new chunk unchanged. -/
theorem ingest_at_capacity_rejects_witness :
    (RetrievalIndex.mk rag_max_index_size
        (List.replicate rag_max_index_size (DocumentChunk.mk [] [] 0 0))).ingest
          [DocumentChunk.mk [] [] 0 0]
      = (false, RetrievalIndex.mk rag_max_index_size
          (List.replicate rag_max_index_size (DocumentChunk.mk [] [] 0 0))) :=
  ingest_at_capacity_rejects _ _ (by simp) (by simp)

/-- C8: every state-changing inbound mailbox operation is issued only in a
connection state that permits it — the guarded implementation never
produces the protocol error the raw operation would produce in a
non-permitting state, an issued operation implies the state permitted it,
and a non-permitting state yields the recoverable reconnect-and-retry
outcome instead of a crash. -/
theorem imap_ops_state_guarded :
    ∀ (s : ImapState) (op : ImapOp),
      guardedApply s op ≠ OpResult.protocolError ∧
      (∀ s2, guardedApply s op = OpResult.ok s2 → permits s op = true) ∧
      (permits s op = false → guardedApply s op = OpResult.reconnectRetry) := by
  decide

/-- Witness for C8 at the troubleshooting guide's concrete failure: CLOSE
in the unauthenticated state is not issued — the guarded client reports a
recoverable outcome, not the "CLOSE illegal in state NONAUTH" protocol
error. -/
theorem imap_ops_state_guarded_witness :
    guardedApply ImapState.nonauth ImapOp.closeMailbox = OpResult.reconnectRetry ∧
    guardedApply ImapState.nonauth ImapOp.closeMailbox ≠ OpResult.protocolError :=
  ⟨(imap_ops_state_guarded ImapState.nonauth ImapOp.closeMailbox).2.2 (by decide),
   (imap_ops_state_guarded ImapState.nonauth ImapOp.closeMailbox).1⟩

/-- C9: constructing the mail transport raises ValueError exactly when at
least one of GMAIL_USER or GMAIL_APP_PASS is unset or empty; when both are
non-empty it succeeds, returning the constructed client record — a pure
assignment, with no mail-server contact. -/
theorem emailClient_init_valueError_iff (u p : Option String) :
    ((∃ e, EmailClient.init u p = Except.error e) ↔
      (u = Option.none ∨ u = Option.some emptyString ∨
       p = Option.none ∨ p = Option.some emptyString)) ∧
    (strTruthy u = true → strTruthy p = true →
      EmailClient.init u p = Except.ok (EmailClient.mk (u.getD emptyString)
        (p.getD emptyString) processed_messages_file)) := by
  constructor
  · cases u with
    | none => simp [EmailClient.init, strTruthy]
    | some su =>
      cases p with
      | none => simp [EmailClient.init, strTruthy]
      | some sp =>
        by_cases hsu : su = emptyString
        · simp [EmailClient.init, strTruthy, hsu]
        · by_cases hsp : sp = emptyString
          · simp [EmailClient.init, strTruthy, hsu, hsp]
          · simp [EmailClient.init, strTruthy, hsu, hsp]
  · intro hu hp2
    unfold EmailClient.init
    rw [hu, hp2]
    simp

/-- Witness for C9 at concrete credentials: with both variables set and
non-empty, construction succeeds and returns exactly the assigned record. -/
theorem emailClient_init_valueError_iff_witness :
    EmailClient.init (Option.some sampleUser) (Option.some samplePass)
      = Except.ok (EmailClient.mk sampleUser samplePass processed_messages_file) :=
  (emailClient_init_valueError_iff (Option.some sampleUser) (Option.some samplePass)).2
    (by decide) (by decide)

/-! ## Unicode lemmas -/

theorem validScalar_iff (c : Nat) :
    validScalar c = true ↔ (c < 0x110000 ∧ (c < 0xD800 ∨ 0xDFFF < c)) := by
  constructor
  · intro h
    simp [validScalar] at h
    omega
  · intro h
    simp [validScalar]
    omega

set_option maxRecDepth 4096 in
theorem decodeLoop_valid (fuel : Nat) :
    ∀ (l : List Nat), ∀ c ∈ decodeLoop fuel l, validScalar c = true := by
  induction fuel with
  | zero =>
    intro l c hc
    simp [decodeLoop] at hc
  | succ n ih =>
    intro l c hc
    cases l with
    | nil => simp [decodeLoop] at hc
    | cons b1 rest =>
      simp only [decodeLoop] at hc
      repeat' split at hc
      all_goals
        (rcases List.mem_cons.mp hc with rfl | hmem
         · simp only [isCont, Bool.and_eq_true, decide_eq_true_eq, not_le,
             validScalar_iff] at *
           omega
         · first
             | exact ih _ c hmem
             | simp at hmem)

theorem nfkcChar_replace (c : Nat) :
    (nfkcChar c).map replaceNbspChar = nfkcChar (collapseWhitespaceChar c) := by
  by_cases h : isCompatSpace c = true
  · simp [nfkcChar, collapseWhitespaceChar, h, replaceNbspChar]
  · by_cases h2 : c = 0xFB01
    · subst h2
      simp [nfkcChar, collapseWhitespaceChar, replaceNbspChar, h]
    · have hA : c ≠ 0xA0 := by
        intro he
        subst he
        exact h (by decide)
      simp [nfkcChar, collapseWhitespaceChar, h, h2, replaceNbspChar, hA]

theorem clean_str_pystr_eq (s : List Nat) :
    clean_str (PyVal.pystr s) = nfkcNormalize (s.map collapseWhitespaceChar) := by
  induction s with
  | nil => rfl
  | cons c cs ih =>
    simp only [clean_str, nfkcNormalize, List.map_cons, List.flatMap_cons, List.map_append]
    rw [nfkcChar_replace]
    congr 1

theorem clean_str_pybytes_eq (bs : List Nat) :
    clean_str (PyVal.pybytes bs)
      = nfkcNormalize ((decodeUtf8Replace bs).map collapseWhitespaceChar) := by
  have h := clean_str_pystr_eq (decodeUtf8Replace bs)
  simpa [clean_str] using h

theorem replaceNbspChar_ne_nbsp (c : Nat) : replaceNbspChar c ≠ 0xA0 := by
  unfold replaceNbspChar
  split
  · decide
  · next h => simpa using h

theorem nfkcChar_valid (c d : Nat) (hc : validScalar c = true) (hd : d ∈ nfkcChar c) :
    validScalar d = true := by
  unfold nfkcChar at hd
  split at hd
  · simp at hd
    subst hd
    decide
  · split at hd
    · simp at hd
      rcases hd with rfl | rfl <;> decide
    · simp at hd
      subst hd
      exact hc

theorem replaceNbspChar_valid (c : Nat) (hc : validScalar c = true) :
    validScalar (replaceNbspChar c) = true := by
  unfold replaceNbspChar
  split
  · decide
  · exact hc

/-- C6: for every input, the parsed text contains no raw non-breaking
space (U+00A0), and for every input byte sequence decoding is never fatal:
every code point of the parsed text is a valid Unicode scalar value,
invalid bytes having been replaced during UTF-8 decoding. -/
theorem clean_str_no_nbsp_and_valid (v : PyVal) (bs : List Nat) :
    (∀ c ∈ clean_str v, c ≠ 0xA0) ∧
    (∀ c ∈ clean_str (PyVal.pybytes bs), validScalar c = true) := by
  constructor
  · intro c hc
    cases v with
    | pynone => simp [clean_str] at hc
    | pybytes bs2 =>
      simp only [clean_str] at hc
      rcases List.mem_map.mp hc with ⟨d, _, rfl⟩
      exact replaceNbspChar_ne_nbsp d
    | pystr s =>
      simp only [clean_str] at hc
      rcases List.mem_map.mp hc with ⟨d, _, rfl⟩
      exact replaceNbspChar_ne_nbsp d
  · intro c hc
    simp only [clean_str, nfkcNormalize] at hc
    rcases List.mem_map.mp hc with ⟨d, hd, rfl⟩
    rcases List.mem_flatMap.mp hd with ⟨e, he, hde⟩
    have hev : validScalar e = true := decodeLoop_valid bs.length bs e he
    exact replaceNbspChar_valid d (nfkcChar_valid e d hev hde)

/-- Witness for C6 at a concrete byte sequence: the UTF-8 encoding of a
non-breaking space parses to a plain space, which is not U+00A0 and is a
valid scalar. -/
theorem clean_str_no_nbsp_and_valid_witness :
    clean_str (PyVal.pybytes [0xC2, 0xA0]) = [0x20] ∧ (0x20 : Nat) ≠ 0xA0 ∧
    validScalar 0x20 = true := by
  refine ⟨by decide, ?_, ?_⟩
  · exact (clean_str_no_nbsp_and_valid (PyVal.pybytes [0xC2, 0xA0]) []).1 0x20 (by decide)
  · exact (clean_str_no_nbsp_and_valid (PyVal.pybytes [0xC2, 0xA0]) [0xC2, 0xA0]).2 0x20
      (by decide)

/-- C7 fails as stated: the parser normalizes with NFKC (compatibility
composition), not canonical composition — on the input consisting of the
single code point U+FB01 (the ﬁ ligature, canonically stable), `clean_str`
returns "fi" while the canonical-composition normal form of the
whitespace-replaced input is still U+FB01. -/
theorem clean_str_not_canonical_counterexample :
    clean_str (PyVal.pystr [0xFB01]) ≠ specCanonicalNormalize [0xFB01] := by
  decide

/-- C7 amended: the parser's normalization produces the compatibility
Unicode composition (NFKC) of the decoded text with non-breaking and
exotic whitespace collapsed to plain spaces — the normalized output equals
the NFKC normal form of the input after that whitespace replacement, for
both str and bytes inputs. -/
theorem clean_str_compat_normal_form (s bs : List Nat) :
    clean_str (PyVal.pystr s) = nfkcNormalize (s.map collapseWhitespaceChar) ∧
    clean_str (PyVal.pybytes bs)
      = nfkcNormalize ((decodeUtf8Replace bs).map collapseWhitespaceChar) :=
  ⟨clean_str_pystr_eq s, clean_str_pybytes_eq bs⟩

/-- C10: `clean_str` is total over None, bytes and str inputs — None yields
the empty string, a bytes input is decoded with replacement (never raising:
every decoded code point is a valid scalar) and then follows the same path
as a str input, and in every case a string is returned. -/
theorem clean_str_total_over_inputs (bs : List Nat) :
    clean_str PyVal.pynone = [] ∧
    clean_str (PyVal.pybytes bs) = clean_str (PyVal.pystr (decodeUtf8Replace bs)) ∧
    (∀ c ∈ decodeUtf8Replace bs, validScalar c = true) :=
  ⟨rfl, rfl, fun c hc => decodeLoop_valid bs.length bs c hc⟩

/-- Witness for C10 at a concrete invalid byte: 0xFF cannot start a UTF-8
sequence and is decoded to the replacement character, a valid scalar,
rather than raising. -/
theorem clean_str_total_over_inputs_witness :
    decodeUtf8Replace [0xFF] = [0xFFFD] ∧ validScalar 0xFFFD = true :=
  ⟨by decide, (clean_str_total_over_inputs [0xFF]).2.2 0xFFFD (by decide)⟩
